import Mathlib

/-!
Shallow embedding of `ethcore/private-tx/src/private_transactions.rs`
(Parity private-transactions admission and signing core) and proofs of the
specification's claims about it.

Modelling conventions:
* `U256` values (nonces, gas prices), `H256` hashes, `Address`es and
  `Signature`s are modelled as `Nat` (no arithmetic in the source wraps or
  overflows on the inputs of interest; `>> 3` becomes `/ 8`).
* Rust `HashMap` is modelled as an association list with first-key-wins
  lookup and replace-in-place insertion.
* Methods that mutate `&mut self` and return `Result<(), Error>` are
  modelled as functions returning the pair (result, new state).
-/

set_option linter.unusedVariables false

namespace PrivateTx

/-- `txpool::Readiness` (external crate, used by `is_ready`). -/
inductive Readiness where
  | Ready
  | Future
  | Stale
deriving DecidableEq, Repr

/-- `txpool::scoring::Choice` (external crate, used by `choose`). -/
inductive Choice where
  | InsertNew
  | RejectNew
  | ReplaceOld
deriving DecidableEq, Repr

/-- Error kinds surfaced by this module (`error::ErrorKind`). -/
inductive ErrorKind where
  | QueueIsFull
  | PrivateTransactionNotFound
deriving DecidableEq, Repr

/-- `MAX_QUEUE_LEN`: maximum length for private transactions queues. -/
def MAX_QUEUE_LEN : Nat := 8312

/-- `GAS_PRICE_BUMP_SHIFT = 3` (12.5% bump). -/
def GAS_PRICE_BUMP_SHIFT : Nat := 3

/-- The fields of `transaction::SignedTransaction` that this module reads:
its nonce and gas price (both `U256`, modelled as `Nat`). -/
structure SignedTransaction where
  nonce : Nat
  gas_price : Nat
deriving DecidableEq, Repr

/-- `VerifiedPrivateTransaction`: descriptor for a private transaction stored
in the verification queue.  The opaque original payload is modelled by a
`Nat` tag; `validator_account` is kept as in the source. -/
structure VerifiedPrivateTransaction where
  private_transaction : Nat
  validator_account : Option Nat
  transaction : SignedTransaction
  transaction_hash : Nat
  transaction_sender : Nat
deriving DecidableEq, Repr

namespace VerifiedPrivateTransaction

/-- `impl txpool::VerifiedTransaction`: `hash` returns the cached hash. -/
def hash (tx : VerifiedPrivateTransaction) : Nat := tx.transaction_hash

/-- `impl txpool::VerifiedTransaction`: `sender` returns the cached sender. -/
def sender (tx : VerifiedPrivateTransaction) : Nat := tx.transaction_sender

end VerifiedPrivateTransaction

namespace PrivateScorying

/-- `PrivateScorying::compare`: order two same-sender records by nonce. -/
def compare (old other : VerifiedPrivateTransaction) : Ordering :=
  Ord.compare old.transaction.nonce other.transaction.nonce

/-- `PrivateScorying::choose`: records with different nonces coexist;
at the same nonce the new record replaces the old one unless the required
minimum gas price `old_gp + (old_gp >> GAS_PRICE_BUMP_SHIFT)` exceeds the
new gas price. -/
def choose (old new : VerifiedPrivateTransaction) : Choice :=
  if old.transaction.nonce ≠ new.transaction.nonce then
    Choice.InsertNew
  else
    let old_gp := old.transaction.gas_price
    let new_gp := new.transaction.gas_price
    let min_required_gp := old_gp + old_gp / 2 ^ GAS_PRICE_BUMP_SHIFT
    match Ord.compare min_required_gp new_gp with
    | Ordering.gt => Choice.RejectNew
    | _ => Choice.ReplaceOld

/-- `PrivateScorying::should_replace`: a same-sender record with a strictly
lower nonce is always preferred; otherwise defer to `choose`. -/
def should_replace (old new : VerifiedPrivateTransaction) : Bool :=
  if old.sender = new.sender ∧ new.transaction.nonce < old.transaction.nonce then
    true
  else
    decide (choose old new = Choice.ReplaceOld)

end PrivateScorying

/-- Association-list lookup, modelling `HashMap::get`. -/
def alookup {V : Type} : List (Nat × V) → Nat → Option V
  | [], _ => none
  | (k, v) :: rest, a => if k = a then some v else alookup rest a

/-- Association-list membership, modelling `HashMap::contains_key` /
`Entry::Occupied`. -/
def containsKey {V : Type} (m : List (Nat × V)) (a : Nat) : Bool :=
  (alookup m a).isSome

/-- Association-list insertion that replaces the value in place when the key
is present and appends otherwise, modelling `HashMap::insert`. -/
def mapInsert {V : Type} : List (Nat × V) → Nat → V → List (Nat × V)
  | [], k, v => [(k, v)]
  | (k', v') :: rest, k, v =>
      if k' = k then (k, v) :: rest else (k', v') :: mapInsert rest k v

/-- The per-drain nonce tracker of `PrivateReadyState`: sender ↦ cursor. -/
def NonceMap : Type := List (Nat × Nat)

/-- `PrivateReadyState::is_ready`, with the external chain-state nonce
oracle `account_nonce` passed as the function `f`.  On first sight of a
sender the cursor is seeded from `f`; the verdict compares the record's
nonce with the cursor, and a `Ready` verdict advances the cursor; a sender
already present in the map yields `Future` unconditionally. -/
def isReady (f : Nat → Nat) (m : NonceMap) (tx : VerifiedPrivateTransaction) :
    Readiness × NonceMap :=
  match alookup m tx.sender with
  | some _ => (Readiness.Future, m)
  | none =>
      match Ord.compare tx.transaction.nonce (f tx.sender) with
      | Ordering.gt => (Readiness.Future, (tx.sender, f tx.sender) :: m)
      | Ordering.lt => (Readiness.Stale, (tx.sender, f tx.sender) :: m)
      | Ordering.eq => (Readiness.Ready, (tx.sender, f tx.sender + 1) :: m)

/-- The sequence of verdicts produced by one `PrivateReadyState` lifetime
over a sequence of `is_ready` calls. -/
def runReady (f : Nat → Nat) (m : NonceMap) :
    List VerifiedPrivateTransaction → List Readiness
  | [] => []
  | t :: ts =>
      let step := isReady f m t
      step.1 :: runReady f step.2 ts

/-- The nonce map after one `PrivateReadyState` lifetime has processed a
sequence of `is_ready` calls. -/
def foldMap (f : Nat → Nat) (m : NonceMap) :
    List VerifiedPrivateTransaction → NonceMap
  | [] => m
  | t :: ts => foldMap f (isReady f m t).2 ts

/-- Modelled from the spec: the generic bounded pool (`txpool::Pool`) is an
external collaborator, not part of this crate's source.  Per §6, `pending`
yields the pool's records in the pool's own iteration order, gated by the
readiness oracle's verdicts: exactly the records the (stateful) oracle judges
`Ready`.  The pool is modelled as the list of its records in iteration
order. -/
def pendingList (f : Nat → Nat) (m : NonceMap) :
    List VerifiedPrivateTransaction → List VerifiedPrivateTransaction
  | [] => []
  | t :: ts =>
      if (isReady f m t).1 = Readiness.Ready then
        t :: pendingList f (isReady f m t).2 ts
      else
        pendingList f (isReady f m t).2 ts

/-- Modelled from the spec: `txpool::Pool::remove(hash, _)` removes the
record with the given content-derived hash from the pool. -/
def removeHash (pool : List VerifiedPrivateTransaction) (h : Nat) :
    List VerifiedPrivateTransaction :=
  pool.filter (fun tx => tx.transaction_hash ≠ h)

/-- `VerificationStore`: its verification pool, modelled as the list of pool
records in the pool's iteration order. -/
structure VerificationStore where
  verification_pool : List VerifiedPrivateTransaction
deriving DecidableEq, Repr

/-- `VerificationStore::drain`: build a fresh `PrivateReadyState` over the
external nonce oracle `f`, collect the pending (Ready) records, then remove
each collected record from the pool by its hash.  Returns the drained
records and the store left behind. -/
def VerificationStore.drain (f : Nat → Nat) (s : VerificationStore) :
    List VerifiedPrivateTransaction × VerificationStore :=
  let res := pendingList f [] s.verification_pool
  let hashes := res.map (fun tx => tx.transaction_hash)
  (res, ⟨hashes.foldl removeHash s.verification_pool⟩)

/-- The fields of `ethkey::Signature` and `bytes::Bytes` are opaque here:
both are modelled as `Nat` tags compared by value. -/
structure PrivateTransactionSigningDesc where
  original_transaction : SignedTransaction
  validators : List Nat
  received_signatures : List Nat
  state : Nat
  contract_nonce : Nat
deriving DecidableEq, Repr

/-- `SigningStore`: transactions and descriptors for signing, keyed by the
private transaction's hash. -/
structure SigningStore where
  transactions : List (Nat × PrivateTransactionSigningDesc)
deriving DecidableEq, Repr

namespace SigningStore

/-- `SigningStore::add_transaction`: bail with `QueueIsFull` when the map's
length exceeds `MAX_QUEUE_LEN`; otherwise insert a fresh descriptor (with an
empty signature list) at the hash, overwriting any previous entry. -/
def add_transaction (s : SigningStore) (private_hash : Nat)
    (transaction : SignedTransaction) (validators : List Nat)
    (state : Nat) (contract_nonce : Nat) :
    Except ErrorKind Unit × SigningStore :=
  if s.transactions.length > MAX_QUEUE_LEN then
    (Except.error ErrorKind.QueueIsFull, s)
  else
    (Except.ok (),
     ⟨mapInsert s.transactions private_hash
        ⟨transaction, validators, [], state, contract_nonce⟩⟩)

/-- `SigningStore::get`: copy of the descriptor at the hash, if any. -/
def get (s : SigningStore) (private_hash : Nat) :
    Option PrivateTransactionSigningDesc :=
  alookup s.transactions private_hash

/-- `SigningStore::add_signature`: fail with `PrivateTransactionNotFound`
when the hash is unknown; otherwise append the signature unless an equal one
is already stored. -/
def add_signature (s : SigningStore) (private_hash : Nat) (signature : Nat) :
    Except ErrorKind Unit × SigningStore :=
  match alookup s.transactions private_hash with
  | none => (Except.error ErrorKind.PrivateTransactionNotFound, s)
  | some desc =>
      if signature ∈ desc.received_signatures then
        (Except.ok (), s)
      else
        (Except.ok (),
         ⟨mapInsert s.transactions private_hash
            { desc with
              received_signatures := desc.received_signatures ++ [signature] }⟩)

end SigningStore

/-- Number of copies of a signature stored at a hash (0 when the hash is
absent); used to state deduplication properties. -/
def sigCount (s : SigningStore) (private_hash sig : Nat) : Nat :=
  match alookup s.transactions private_hash with
  | none => 0
  | some desc => desc.received_signatures.count sig

/-- A throwaway descriptor used to build concrete stores in witnesses. -/
def defaultDesc : PrivateTransactionSigningDesc := ⟨⟨0, 0⟩, [], [], 0, 0⟩

/-- A concrete signing store holding `n` entries at hashes `0..n-1`. -/
def mkStore (n : Nat) : SigningStore :=
  ⟨(List.range n).map (fun i => (i, defaultDesc))⟩

/-- Claim C1 first conjunct, spelled as in the spec: at equal sender and
nonce, replacement happens iff `new_fee ≥ old_fee + ⌊old_fee/8⌋`. -/
theorem choose_gas_price_iff (old new : VerifiedPrivateTransaction)
    (hn : old.transaction.nonce = new.transaction.nonce) :
    PrivateScorying.choose old new = Choice.ReplaceOld ↔
      old.transaction.gas_price + old.transaction.gas_price / 8 ≤
        new.transaction.gas_price := by
  unfold PrivateScorying.choose
  simp only [hn, ne_eq, not_true_eq_false, if_false]
  rcases Nat.lt_trichotomy
      (old.transaction.gas_price + old.transaction.gas_price / 8)
      new.transaction.gas_price with h | h | h
  · have hc : Ord.compare (old.transaction.gas_price +
        old.transaction.gas_price / 2 ^ GAS_PRICE_BUMP_SHIFT)
        new.transaction.gas_price = Ordering.lt := by
      simpa [GAS_PRICE_BUMP_SHIFT, Nat.compare_eq_lt] using h
    simp [hc, Nat.le_of_lt h]
  · have hc : Ord.compare (old.transaction.gas_price +
        old.transaction.gas_price / 2 ^ GAS_PRICE_BUMP_SHIFT)
        new.transaction.gas_price = Ordering.eq := by
      simpa [GAS_PRICE_BUMP_SHIFT, Nat.compare_eq_eq] using h
    simp [hc, Nat.le_of_eq h]
  · have hc : Ord.compare (old.transaction.gas_price +
        old.transaction.gas_price / 2 ^ GAS_PRICE_BUMP_SHIFT)
        new.transaction.gas_price = Ordering.gt := by
      simpa [GAS_PRICE_BUMP_SHIFT, Nat.compare_eq_gt] using h
    simp [hc, Nat.not_le.mpr h]

/-- C1: for same sender and same nonce, `should_replace` accepts the new
record iff its gas price meets the 12.5% bump over the stored one; a
same-sender record with a strictly lower nonce is accepted regardless of
gas price; and records with different nonces coexist (`choose` says
`InsertNew`). -/
theorem claim_C1_scoring (old new : VerifiedPrivateTransaction) :
    (old.transaction_sender = new.transaction_sender →
      old.transaction.nonce = new.transaction.nonce →
        (PrivateScorying.should_replace old new = true ↔
          old.transaction.gas_price + old.transaction.gas_price / 8 ≤
            new.transaction.gas_price)) ∧
    (old.transaction_sender = new.transaction_sender →
      new.transaction.nonce < old.transaction.nonce →
        PrivateScorying.should_replace old new = true) ∧
    (old.transaction.nonce ≠ new.transaction.nonce →
      PrivateScorying.choose old new = Choice.InsertNew) := by
  refine ⟨?_, ?_, ?_⟩
  · intro hs hn
    unfold PrivateScorying.should_replace
    have hlt : ¬ new.transaction.nonce < old.transaction.nonce := by
      simp [hn]
    simp only [VerifiedPrivateTransaction.sender, hs, hlt, and_false, if_false]
    rw [decide_eq_true_iff]
    exact choose_gas_price_iff old new hn
  · intro hs hlt
    unfold PrivateScorying.should_replace
    simp [VerifiedPrivateTransaction.sender, hs, hlt]
  · intro hn
    unfold PrivateScorying.choose
    simp [hn]

theorem alookup_cons {V : Type} (k : Nat) (v : V) (m : List (Nat × V)) (a : Nat) :
    alookup ((k, v) :: m) a = if k = a then some v else alookup m a := rfl

theorem containsKey_cons {V : Type} (k : Nat) (v : V) (m : List (Nat × V)) (a : Nat) :
    containsKey ((k, v) :: m) a = (decide (k = a) || containsKey m a) := by
  unfold containsKey
  rw [alookup_cons]
  by_cases h : k = a <;> simp [h]

/-- Processing one `is_ready` call adds exactly the record's sender to the
tracked-sender set. -/
theorem containsKey_isReady (f : Nat → Nat) (m : NonceMap)
    (tx : VerifiedPrivateTransaction) (a : Nat) :
    containsKey (isReady f m tx).2 a =
      (containsKey m a || decide (tx.transaction_sender = a)) := by
  simp only [isReady, VerifiedPrivateTransaction.sender]
  cases h : alookup m tx.transaction_sender with
  | some v =>
      simp only [h]
      by_cases ha : tx.transaction_sender = a
      · have hma : containsKey m a = true := by
          unfold containsKey
          rw [← ha, h]
          rfl
        simp [hma, ha]
      · simp [ha]
  | none =>
      simp only [h]
      cases hc : Ord.compare tx.transaction.nonce (f tx.transaction_sender) <;>
        simp [hc, containsKey_cons, Bool.or_comm]

/-- The verdict of a single `is_ready` call: `Future` for a sender already
tracked, otherwise determined by comparing the record's nonce with the
external account nonce. -/
theorem isReady_fst (f : Nat → Nat) (m : NonceMap) (tx : VerifiedPrivateTransaction) :
    (isReady f m tx).1 =
      if containsKey m tx.transaction_sender then Readiness.Future
      else
        match Ord.compare tx.transaction.nonce (f tx.transaction_sender) with
        | Ordering.gt => Readiness.Future
        | Ordering.lt => Readiness.Stale
        | Ordering.eq => Readiness.Ready := by
  simp only [isReady, VerifiedPrivateTransaction.sender]
  cases h : alookup m tx.transaction_sender with
  | some v =>
      have hck : containsKey m tx.transaction_sender = true := by
        unfold containsKey
        rw [h]
        rfl
      simp [h, hck]
  | none =>
      have hck : containsKey m tx.transaction_sender = false := by
        unfold containsKey
        rw [h]
        rfl
      cases hc : Ord.compare tx.transaction.nonce (f tx.transaction_sender) <;>
        simp [h, hc, hck]

/-- C10: a sender already tracked by `PrivateReadyState` receives `Future`
unconditionally (and the map is untouched); and any `is_ready` call marks
its sender as tracked, whatever the verdict was. -/
theorem claim_C10_seen_sender_always_future (f : Nat → Nat) (m : NonceMap)
    (tx : VerifiedPrivateTransaction) :
    (containsKey m tx.transaction_sender = true →
      isReady f m tx = (Readiness.Future, m)) ∧
    containsKey (isReady f m tx).2 tx.transaction_sender = true := by
  constructor
  · intro h
    unfold containsKey at h
    rw [Option.isSome_iff_exists] at h
    obtain ⟨v, hv⟩ := h
    simp only [isReady, VerifiedPrivateTransaction.sender]
    simp [hv]
  · rw [containsKey_isReady]
    simp

/-- Witness for C10: with external nonce 0 everywhere and sender 1 already
tracked at cursor 5, a record from sender 1 gets `Future` and the map is
unchanged; the sender stays tracked. -/
theorem claim_C10_seen_sender_always_future_witness :
    (isReady (fun _ => 0) [(1, 5)] ⟨0, none, ⟨5, 0⟩, 30, 1⟩ =
      (Readiness.Future, [(1, 5)])) ∧
    containsKey (isReady (fun _ => 0) [(1, 5)] ⟨0, none, ⟨5, 0⟩, 30, 1⟩).2 1 = true :=
  ⟨(claim_C10_seen_sender_always_future (fun _ => 0) [(1, 5)]
      ⟨0, none, ⟨5, 0⟩, 30, 1⟩).1 (by decide),
   (claim_C10_seen_sender_always_future (fun _ => 0) [(1, 5)]
      ⟨0, none, ⟨5, 0⟩, 30, 1⟩).2⟩

/-- Counterexample to C2: with external nonce 5 for sender 1, a first
record at nonce 6 gets `Future`; a second record from the same sender at
nonce 5 — exactly the tracked cursor — then gets `Future`, not `Ready` as
the claim asserts, because the sender was marked as seen by the first
(non-Ready) verdict. -/
theorem claim_C2_counterexample :
    runReady (fun _ => 5) [] [⟨0, none, ⟨6, 0⟩, 20, 1⟩, ⟨0, none, ⟨5, 0⟩, 21, 1⟩] =
      [Readiness.Future, Readiness.Future] ∧
    Readiness.Future ≠ Readiness.Ready := by
  constructor
  · rfl
  · decide

/-- Appending a final call to a verdict sequence: the last verdict is
computed in the map accumulated over the earlier calls. -/
theorem runReady_concat (f : Nat → Nat) (txs : List VerifiedPrivateTransaction)
    (tx : VerifiedPrivateTransaction) :
    ∀ m : NonceMap, runReady f m (txs ++ [tx]) =
      runReady f m txs ++ [(isReady f (foldMap f m txs) tx).1] := by
  induction txs with
  | nil => intro m; rfl
  | cons t ts ih =>
      intro m
      have h1 : runReady f m ((t :: ts) ++ [tx]) =
          (isReady f m t).1 :: runReady f (isReady f m t).2 (ts ++ [tx]) := rfl
      have h2 : runReady f m (t :: ts) =
          (isReady f m t).1 :: runReady f (isReady f m t).2 ts := rfl
      have h3 : foldMap f m (t :: ts) = foldMap f (isReady f m t).2 ts := rfl
      rw [h1, h2, h3, ih]
      rfl

/-- Tracked senders after a sequence of calls: exactly those tracked before
plus the senders of the processed records, whatever their verdicts. -/
theorem containsKey_foldMap (f : Nat → Nat) (txs : List VerifiedPrivateTransaction) :
    ∀ (m : NonceMap) (a : Nat), containsKey (foldMap f m txs) a =
      (containsKey m a || txs.any (fun t => decide (t.transaction_sender = a))) := by
  induction txs with
  | nil => intro m a; simp [foldMap]
  | cons t ts ih =>
      intro m a
      simp only [foldMap, List.any_cons]
      rw [ih, containsKey_isReady, Bool.or_assoc]

/-- C2 amended: within one `PrivateReadyState` lifetime, a record's verdict
is `Future` whenever any earlier call was made for the same sender —
regardless of the earlier verdicts — and otherwise is determined by
comparing its nonce with the external account nonce (above → `Future`,
below → `Stale`, equal → `Ready`). -/
theorem claim_C2_amended_verdicts (f : Nat → Nat)
    (pre : List VerifiedPrivateTransaction) (tx : VerifiedPrivateTransaction) :
    (runReady f [] (pre ++ [tx])).getLast? = some (
      if pre.any (fun t => decide (t.transaction_sender = tx.transaction_sender)) then
        Readiness.Future
      else
        match Ord.compare tx.transaction.nonce (f tx.transaction_sender) with
        | Ordering.gt => Readiness.Future
        | Ordering.lt => Readiness.Stale
        | Ordering.eq => Readiness.Ready) := by
  rw [runReady_concat, List.getLast?_concat, isReady_fst, containsKey_foldMap]
  simp [containsKey, alookup]

/-- Witness for C1 at the spec's scenario values: old fee 1000, a new
record at fee 1200 with the same sender and nonce is accepted
(`1200 ≥ 1000 + 125`), while one at fee 1100 is rejected. -/
theorem claim_C1_scoring_witness :
    PrivateScorying.should_replace
        ⟨0, none, ⟨5, 1000⟩, 10, 1⟩ ⟨0, none, ⟨5, 1200⟩, 11, 1⟩ = true ∧
    ¬ PrivateScorying.should_replace
        ⟨0, none, ⟨5, 1000⟩, 10, 1⟩ ⟨0, none, ⟨5, 1100⟩, 12, 1⟩ = true := by
  constructor
  · exact ((claim_C1_scoring ⟨0, none, ⟨5, 1000⟩, 10, 1⟩
      ⟨0, none, ⟨5, 1200⟩, 11, 1⟩).1 rfl rfl).mpr (by norm_num)
  · intro h
    have := ((claim_C1_scoring ⟨0, none, ⟨5, 1000⟩, 10, 1⟩
      ⟨0, none, ⟨5, 1100⟩, 12, 1⟩).1 rfl rfl).mp h
    norm_num at this

/-- A `Ready` verdict happens only for a sender not yet tracked, and only
when the record's nonce equals the external account nonce. -/
theorem ready_means_fresh (f : Nat → Nat) (m : NonceMap)
    (t : VerifiedPrivateTransaction) (h : (isReady f m t).1 = Readiness.Ready) :
    containsKey m t.transaction_sender = false ∧
      t.transaction.nonce = f t.transaction_sender := by
  rw [isReady_fst] at h
  cases hck : containsKey m t.transaction_sender with
  | true => rw [hck] at h; simp at h
  | false =>
      rw [hck] at h
      simp only [Bool.false_eq_true, if_false] at h
      refine ⟨rfl, ?_⟩
      cases hc : Ord.compare t.transaction.nonce (f t.transaction_sender) with
      | lt => rw [hc] at h; exact absurd h (by simp)
      | eq => exact Nat.compare_eq_eq.mp hc
      | gt => rw [hc] at h; exact absurd h (by simp)

/-- If a sender is untracked after an `is_ready` call, it was untracked
before and is not the processed record's sender. -/
theorem untracked_after_isReady (f : Nat → Nat) (m : NonceMap)
    (t : VerifiedPrivateTransaction) (a : Nat)
    (h : containsKey (isReady f m t).2 a = false) :
    containsKey m a = false ∧ ¬ t.transaction_sender = a := by
  rw [containsKey_isReady] at h
  simpa using h

/-- Every record collected by `pending` has a sender that was untracked when
collection started. -/
theorem pendingList_not_seen (f : Nat → Nat) :
    ∀ (ts : List VerifiedPrivateTransaction) (m : NonceMap)
      (tx : VerifiedPrivateTransaction), tx ∈ pendingList f m ts →
        containsKey m tx.transaction_sender = false := by
  intro ts
  induction ts with
  | nil => intro m tx h; simp [pendingList] at h
  | cons t ts ih =>
      intro m tx h
      simp only [pendingList] at h
      by_cases hr : (isReady f m t).1 = Readiness.Ready
      · rw [if_pos hr] at h
        rcases List.mem_cons.mp h with rfl | hmem
        · exact (ready_means_fresh f m tx hr).1
        · exact (untracked_after_isReady f m t _ (ih _ _ hmem)).1
      · rw [if_neg hr] at h
        exact (untracked_after_isReady f m t _ (ih _ _ h)).1

/-- Every record collected by `pending` sits exactly at its sender's
external account nonce. -/
theorem pendingList_nonce_matches (f : Nat → Nat) :
    ∀ (ts : List VerifiedPrivateTransaction) (m : NonceMap)
      (tx : VerifiedPrivateTransaction), tx ∈ pendingList f m ts →
        tx.transaction.nonce = f tx.transaction_sender := by
  intro ts
  induction ts with
  | nil => intro m tx h; simp [pendingList] at h
  | cons t ts ih =>
      intro m tx h
      simp only [pendingList] at h
      by_cases hr : (isReady f m t).1 = Readiness.Ready
      · rw [if_pos hr] at h
        rcases List.mem_cons.mp h with rfl | hmem
        · exact (ready_means_fresh f m tx hr).2
        · exact ih _ _ hmem
      · rw [if_neg hr] at h
        exact ih _ _ h

/-- The records collected by `pending` have pairwise distinct senders. -/
theorem pendingList_pairwise (f : Nat → Nat) :
    ∀ (ts : List VerifiedPrivateTransaction) (m : NonceMap),
      (pendingList f m ts).Pairwise
        (fun a b => a.transaction_sender ≠ b.transaction_sender) := by
  intro ts
  induction ts with
  | nil => intro m; simp [pendingList]
  | cons t ts ih =>
      intro m
      simp only [pendingList]
      by_cases hr : (isReady f m t).1 = Readiness.Ready
      · rw [if_pos hr]
        refine List.Pairwise.cons ?_ (ih _)
        intro b hb hEq
        have hbf := pendingList_not_seen f ts _ b hb
        have hts : containsKey (isReady f m t).2 t.transaction_sender = true := by
          rw [containsKey_isReady]; simp
        rw [← hEq] at hbf
        rw [hts] at hbf
        exact absurd hbf (by simp)
      · rw [if_neg hr]
        exact ih _

/-- C4: one `drain` call never returns two records with the same sender —
for every pool state and every external nonce assignment. -/
theorem claim_C4_drain_distinct_senders (f : Nat → Nat) (s : VerificationStore) :
    ((VerificationStore.drain f s).1).Pairwise
      (fun a b => a.transaction_sender ≠ b.transaction_sender) := by
  have h : (VerificationStore.drain f s).1 =
      pendingList f [] s.verification_pool := rfl
  rw [h]
  exact pendingList_pairwise f s.verification_pool []

/-- C5: a record whose nonce is strictly below its sender's external account
nonce is never part of the sequence returned by `drain` (the drained records
sit exactly at their sender's external nonce). -/
theorem claim_C5_no_stale_drained (f : Nat → Nat) (s : VerificationStore)
    (tx : VerifiedPrivateTransaction) (h : tx ∈ (VerificationStore.drain f s).1) :
    ¬ tx.transaction.nonce < f tx.transaction_sender := by
  have h' : tx ∈ pendingList f [] s.verification_pool := h
  have heq := pendingList_nonce_matches f s.verification_pool [] tx h'
  omega

/-- Witness for C5: with external nonce 5 for sender 7 and a pool holding
that sender's nonce-5 record, the record is drained and is indeed not below
the external nonce. -/
theorem claim_C5_no_stale_drained_witness :
    ¬ (VerifiedPrivateTransaction.mk 0 none ⟨5, 100⟩ 40 7).transaction.nonce <
      (fun _ => 5 : Nat → Nat)
        (VerifiedPrivateTransaction.mk 0 none ⟨5, 100⟩ 40 7).transaction_sender :=
  claim_C5_no_stale_drained (fun _ => 5) ⟨[⟨0, none, ⟨5, 100⟩, 40, 7⟩]⟩
    ⟨0, none, ⟨5, 100⟩, 40, 7⟩ (by decide)

/-- C6: with external nonce 5 for sender 7 and the pool holding that
sender's records at nonces 5 and 6, `drain` returns exactly the nonce-5
record and removes it; a second `drain` with the same external nonce returns
nothing and leaves the nonce-6 record (Future) in the pool. -/
theorem claim_C6_drain_scenario :
    VerificationStore.drain (fun _ => 5)
        ⟨[⟨0, none, ⟨5, 100⟩, 40, 7⟩, ⟨0, none, ⟨6, 100⟩, 41, 7⟩]⟩ =
      ([⟨0, none, ⟨5, 100⟩, 40, 7⟩], ⟨[⟨0, none, ⟨6, 100⟩, 41, 7⟩]⟩) ∧
    VerificationStore.drain (fun _ => 5) ⟨[⟨0, none, ⟨6, 100⟩, 41, 7⟩]⟩ =
      ([], ⟨[⟨0, none, ⟨6, 100⟩, 41, 7⟩]⟩) := by
  constructor <;> rfl

theorem alookup_mapInsert_self {V : Type} (m : List (Nat × V)) (k : Nat) (v : V) :
    alookup (mapInsert m k v) k = some v := by
  induction m with
  | nil => simp [mapInsert, alookup]
  | cons p rest ih =>
      obtain ⟨k', v'⟩ := p
      by_cases hk : k' = k
      · simp [mapInsert, hk, alookup]
      · simp [mapInsert, hk, alookup, ih]

/-- Counterexample to C3: a signing store holding exactly
`MAX_QUEUE_LEN = 8312` entries — the claimed capacity — still accepts a new
transaction, because the source checks `len > MAX_QUEUE_LEN`, not `≥`. -/
theorem claim_C3_counterexample :
    (mkStore MAX_QUEUE_LEN).transactions.length = MAX_QUEUE_LEN ∧
    (SigningStore.add_transaction (mkStore MAX_QUEUE_LEN) 9000 ⟨0, 0⟩ [] 0 0).1 =
      Except.ok () := by
  have hlen : (mkStore MAX_QUEUE_LEN).transactions.length = MAX_QUEUE_LEN := by
    simp [mkStore]
  refine ⟨hlen, ?_⟩
  simp [SigningStore.add_transaction, hlen]

/-- C3 amended: `SigningStore.add_transaction` fails with `QueueIsFull`
exactly when the ledger holds strictly more than `MAX_QUEUE_LEN` entries (an
off-by-one admitting `MAX_QUEUE_LEN + 1` entries), and a failing call leaves
the store unchanged; at or below the ceiling the call succeeds. -/
theorem claim_C3_amended_capacity (s : SigningStore) (h : Nat)
    (tx : SignedTransaction) (validators : List Nat) (st cn : Nat) :
    (s.transactions.length > MAX_QUEUE_LEN →
      SigningStore.add_transaction s h tx validators st cn =
        (Except.error ErrorKind.QueueIsFull, s)) ∧
    (s.transactions.length ≤ MAX_QUEUE_LEN →
      (SigningStore.add_transaction s h tx validators st cn).1 = Except.ok ()) := by
  constructor
  · intro hlen
    simp [SigningStore.add_transaction, hlen]
  · intro hlen
    simp [SigningStore.add_transaction, Nat.not_lt.mpr hlen]

/-- Witness for amended C3: a store of 8313 entries rejects a new
transaction with `QueueIsFull` and is left unchanged. -/
theorem claim_C3_amended_capacity_witness :
    SigningStore.add_transaction (mkStore (MAX_QUEUE_LEN + 1)) 9000 ⟨0, 0⟩ [] 0 0 =
      (Except.error ErrorKind.QueueIsFull, mkStore (MAX_QUEUE_LEN + 1)) :=
  (claim_C3_amended_capacity (mkStore (MAX_QUEUE_LEN + 1)) 9000 ⟨0, 0⟩ [] 0 0).1
    (by simp [mkStore])

/-- C7: submitting an identical signature twice for a stored transaction
leaves exactly one copy stored, provided the entry respects the spec's
no-duplicates invariant beforehand. -/
theorem claim_C7_add_signature_idempotent (s : SigningStore) (h sig : Nat)
    (desc : PrivateTransactionSigningDesc)
    (hget : alookup s.transactions h = some desc)
    (hnodup : desc.received_signatures.count sig ≤ 1) :
    sigCount (SigningStore.add_signature
      (SigningStore.add_signature s h sig).2 h sig).2 h sig = 1 := by
  by_cases hc : sig ∈ desc.received_signatures
  · have h1 : SigningStore.add_signature s h sig = (Except.ok (), s) := by
      simp [SigningStore.add_signature, hget, hc]
    simp only [h1]
    have hcount : sigCount s h sig = desc.received_signatures.count sig := by
      simp [sigCount, hget]
    have hpos : desc.received_signatures.count sig ≠ 0 := fun h0 =>
      (List.count_eq_zero.mp h0) hc
    omega
  · have h1 : SigningStore.add_signature s h sig =
        (Except.ok (),
         ⟨mapInsert s.transactions h
            { desc with
              received_signatures := desc.received_signatures ++ [sig] }⟩) := by
      simp [SigningStore.add_signature, hget, hc]
    simp only [h1]
    have hget1 : alookup (mapInsert s.transactions h
        { desc with
          received_signatures := desc.received_signatures ++ [sig] }) h =
        some { desc with
               received_signatures := desc.received_signatures ++ [sig] } :=
      alookup_mapInsert_self _ _ _
    have h2 : SigningStore.add_signature
        (⟨mapInsert s.transactions h
            { desc with
              received_signatures := desc.received_signatures ++ [sig] }⟩ :
          SigningStore) h sig =
        (Except.ok (),
         ⟨mapInsert s.transactions h
            { desc with
              received_signatures := desc.received_signatures ++ [sig] }⟩) := by
      simp [SigningStore.add_signature, hget1]
    simp only [h2]
    have hzero : desc.received_signatures.count sig = 0 :=
      List.count_eq_zero.mpr hc
    simp [sigCount, hget1, hzero]

/-- Witness for C7: a store with one entry (no signatures yet) ends up with
exactly one copy of signature 9 after two identical submissions. -/
theorem claim_C7_add_signature_idempotent_witness :
    sigCount (SigningStore.add_signature
      (SigningStore.add_signature ⟨[(5, defaultDesc)]⟩ 5 9).2 5 9).2 5 9 = 1 :=
  claim_C7_add_signature_idempotent ⟨[(5, defaultDesc)]⟩ 5 9 defaultDesc rfl
    (by decide)

/-- C8: `add_signature` against a hash with no entry fails with
`PrivateTransactionNotFound` and leaves the store unchanged. -/
theorem claim_C8_add_signature_unknown_hash (s : SigningStore) (h sig : Nat)
    (habs : alookup s.transactions h = none) :
    SigningStore.add_signature s h sig =
      (Except.error ErrorKind.PrivateTransactionNotFound, s) := by
  simp [SigningStore.add_signature, habs]

/-- Witness for C8: the empty signing store rejects any signature. -/
theorem claim_C8_add_signature_unknown_hash_witness :
    SigningStore.add_signature ⟨[]⟩ 1 2 =
      (Except.error ErrorKind.PrivateTransactionNotFound, (⟨[]⟩ : SigningStore)) :=
  claim_C8_add_signature_unknown_hash ⟨[]⟩ 1 2 rfl

/-- C9: re-adding a transaction at a hash already present (within capacity)
succeeds and unconditionally replaces the prior descriptor with a fresh one
whose signature list is empty — nothing from the prior record survives. -/
theorem claim_C9_overwrite_resets_signatures (s : SigningStore) (h : Nat)
    (old : PrivateTransactionSigningDesc) (tx : SignedTransaction)
    (validators : List Nat) (st cn : Nat)
    (hpres : alookup s.transactions h = some old)
    (hlen : s.transactions.length ≤ MAX_QUEUE_LEN) :
    (SigningStore.add_transaction s h tx validators st cn).1 = Except.ok () ∧
    SigningStore.get (SigningStore.add_transaction s h tx validators st cn).2 h =
      some ⟨tx, validators, [], st, cn⟩ := by
  have hnlt : ¬ s.transactions.length > MAX_QUEUE_LEN := Nat.not_lt.mpr hlen
  constructor
  · simp [SigningStore.add_transaction, hnlt]
  · simp [SigningStore.add_transaction, SigningStore.get, hnlt,
      alookup_mapInsert_self]

/-- Witness for C9: an entry that already gathered signatures `[4, 5]` is
replaced by a fresh descriptor with no signatures. -/
theorem claim_C9_overwrite_resets_signatures_witness :
    (SigningStore.add_transaction ⟨[(5, ⟨⟨1, 2⟩, [3], [4, 5], 6, 7⟩)]⟩
        5 ⟨8, 9⟩ [10] 11 12).1 = Except.ok () ∧
    SigningStore.get (SigningStore.add_transaction
        ⟨[(5, ⟨⟨1, 2⟩, [3], [4, 5], 6, 7⟩)]⟩ 5 ⟨8, 9⟩ [10] 11 12).2 5 =
      some ⟨⟨8, 9⟩, [10], [], 11, 12⟩ :=
  claim_C9_overwrite_resets_signatures ⟨[(5, ⟨⟨1, 2⟩, [3], [4, 5], 6, 7⟩)]⟩
    5 ⟨⟨1, 2⟩, [3], [4, 5], 6, 7⟩ ⟨8, 9⟩ [10] 11 12 rfl (by decide)

end PrivateTx
